import Mathlib

/-!
Verification development for the slide-processing pipeline (slidegen).

The embedding covers the four core components named by the spec:
the recovery parser `cleanAndParseJSON`, the resilient call wrapper
`withRetry` with its error classifier `isCriticalError`
(src/services/geminiService.ts), the per-unit state machine operations
(`handleUpdateSlide`, `handleGenerateVideo`, `handleDeepAnalyze`,
analysis-result construction) and the bounded-concurrency poll
scheduler `processQueue` (src/App.tsx).

Modelling conventions:
* JavaScript strings are `List Char`; `JSON.parse` is modelled by an
  executable recursive-descent parser returning `Option Json` (`none`
  models a thrown `SyntaxError`).
* JSON numbers are kept as their source lexeme (a `String`) because
  JavaScript numbers are IEEE doubles; none of the verified properties
  depends on numeric value arithmetic.
* Thrown JavaScript errors are modelled with `Except` / `Option`.
-/

/-- The character `{` (code 123). -/
def lbrace : Char := Char.ofNat 123

/-- The character `}` (code 125). -/
def rbrace : Char := Char.ofNat 125

/-- The backtick character (code 96). -/
def bq : Char := Char.ofNat 96

def isBq (c : Char) : Bool := c = bq

/-- JSON whitespace accepted by `JSON.parse` (RFC 8259). -/
def isJsonWs (c : Char) : Bool := c = ' ' || c = '\t' || c = '\n' || c = '\r'

/-- JavaScript `\s` / `String.prototype.trim` whitespace (ASCII part;
the unicode space characters never occur in the inputs considered). -/
def isJsWs (c : Char) : Bool :=
  c = ' ' || c = '\t' || c = '\n' || c = '\r' || c = Char.ofNat 11 || c = Char.ofNat 12

def isDigitCh (c : Char) : Bool := '0' ≤ c && c ≤ '9'

/-- A JavaScript JSON value as produced by `JSON.parse`.  Object member
lists keep source order (as JavaScript object keys do).  Numbers keep
their source lexeme. -/
inductive Json where
  | null : Json
  | bool (b : Bool) : Json
  | num (lexeme : String) : Json
  | str (s : String) : Json
  | arr (elems : List Json) : Json
  | obj (members : List (String × Json)) : Json
deriving Repr

/-- Is the value a mapping (JavaScript plain-object)? -/
def Json.isObj : Json → Bool
  | .obj _ => true
  | _ => false

/-- Drop leading JSON whitespace. -/
def skipWs : List Char → List Char
  | [] => []
  | c :: cs => if isJsonWs c then skipWs cs else c :: cs

def parseHexDigit (c : Char) : Option Nat :=
  if '0' ≤ c && c ≤ '9' then some (c.toNat - 48)
  else if 'a' ≤ c && c ≤ 'f' then some (c.toNat - 87)
  else if 'A' ≤ c && c ≤ 'F' then some (c.toNat - 55)
  else none

def escapeChar (c : Char) : Option Char :=
  if c = '"' then some '"'
  else if c = '\\' then some '\\'
  else if c = '/' then some '/'
  else if c = 'b' then some (Char.ofNat 8)
  else if c = 'f' then some (Char.ofNat 12)
  else if c = 'n' then some '\n'
  else if c = 'r' then some '\r'
  else if c = 't' then some '\t'
  else none

/-- Parse the body of a JSON string literal (the opening quote already
consumed); returns the decoded characters and the input after the
closing quote. -/
def parseStringBody (fuel : Nat) (cs : List Char) : Option (List Char × List Char) :=
  match fuel with
  | 0 => none
  | fuel + 1 =>
    match cs with
    | [] => none
    | c :: rest =>
      if c = '"' then some ([], rest)
      else if c = '\\' then
        match rest with
        | [] => none
        | e :: rest2 =>
          if e = 'u' then
            match rest2 with
            | h1 :: h2 :: h3 :: h4 :: rest3 =>
              match parseHexDigit h1, parseHexDigit h2, parseHexDigit h3, parseHexDigit h4 with
              | some x1, some x2, some x3, some x4 =>
                (parseStringBody fuel rest3).map
                  (fun p => (Char.ofNat (((x1 * 16 + x2) * 16 + x3) * 16 + x4) :: p.1, p.2))
              | _, _, _, _ => none
            | _ => none
          else
            match escapeChar e with
            | some ec => (parseStringBody fuel rest2).map (fun p => (ec :: p.1, p.2))
            | none => none
      else if c.toNat < 32 then none
      else (parseStringBody fuel rest).map (fun p => (c :: p.1, p.2))

/-- Parse an optional JSON fraction part; fails (like `JSON.parse`)
when a `.` is not followed by a digit. -/
def parseFracPart (cs : List Char) : Option (List Char × List Char) :=
  match cs with
  | '.' :: rest =>
    let ds := rest.takeWhile isDigitCh
    if ds.isEmpty then none
    else some ('.' :: ds, rest.dropWhile isDigitCh)
  | _ => some ([], cs)

/-- Parse an optional JSON exponent part; fails when `e`/`E` is not
followed by digits. -/
def parseExpPart (cs : List Char) : Option (List Char × List Char) :=
  match cs with
  | [] => some ([], [])
  | c :: rest =>
    if c = 'e' || c = 'E' then
      let (sgn, rest1) := match rest with
        | s :: t => if s = '+' || s = '-' then ([s], t) else (([] : List Char), rest)
        | [] => (([] : List Char), rest)
      let ds := rest1.takeWhile isDigitCh
      if ds.isEmpty then none
      else some (c :: (sgn ++ ds), rest1.dropWhile isDigitCh)
    else some ([], cs)

/-- Parse a JSON number lexeme (grammar of RFC 8259: no leading zeros,
optional fraction and exponent); returns the lexeme and the rest. -/
def parseNumberLex (cs : List Char) : Option (List Char × List Char) :=
  let (sign, cs1) := match cs with
    | '-' :: t => ((['-'] : List Char), t)
    | _ => (([] : List Char), cs)
  match cs1 with
  | [] => none
  | c :: rest =>
    if c = '0' then
      match parseFracPart rest with
      | none => none
      | some (fr, rest1) =>
        match parseExpPart rest1 with
        | none => none
        | some (ex, rest2) => some (sign ++ '0' :: (fr ++ ex), rest2)
    else if isDigitCh c then
      let ds := rest.takeWhile isDigitCh
      let rest0 := rest.dropWhile isDigitCh
      match parseFracPart rest0 with
      | none => none
      | some (fr, rest1) =>
        match parseExpPart rest1 with
        | none => none
        | some (ex, rest2) => some (sign ++ c :: (ds ++ (fr ++ ex)), rest2)
    else none

mutual

/-- `JSON.parse` value parser: dispatches on the first non-whitespace
character and returns the parsed value with the remaining input. -/
def parseValue (fuel : Nat) (cs : List Char) : Option (Json × List Char) :=
  match fuel with
  | 0 => none
  | fuel + 1 =>
    match skipWs cs with
    | [] => none
    | c :: rest =>
      if c = lbrace then
        (parseMembers fuel rest).map (fun p => (Json.obj p.1, p.2))
      else if c = '[' then
        (parseElems fuel rest).map (fun p => (Json.arr p.1, p.2))
      else if c = '"' then
        (parseStringBody fuel rest).map (fun p => (Json.str (String.mk p.1), p.2))
      else if c = 't' then
        match rest with
        | 'r' :: 'u' :: 'e' :: r => some (Json.bool true, r)
        | _ => none
      else if c = 'f' then
        match rest with
        | 'a' :: 'l' :: 's' :: 'e' :: r => some (Json.bool false, r)
        | _ => none
      else if c = 'n' then
        match rest with
        | 'u' :: 'l' :: 'l' :: r => some (Json.null, r)
        | _ => none
      else if c = '-' || isDigitCh c then
        (parseNumberLex (c :: rest)).map (fun p => (Json.num (String.mk p.1), p.2))
      else none

/-- Object members after the opening brace: either an immediate closing
brace or a nonempty member list. -/
def parseMembers (fuel : Nat) (cs : List Char) : Option (List (String × Json) × List Char) :=
  match fuel with
  | 0 => none
  | fuel + 1 =>
    match skipWs cs with
    | [] => none
    | c :: rest =>
      if c = rbrace then some ([], rest)
      else parseMembersLoop fuel (c :: rest)

/-- One or more `"key": value` members separated by commas, ended by a
closing brace.  A comma must be followed by another member (so a
trailing comma is a parse error, as in `JSON.parse`). -/
def parseMembersLoop (fuel : Nat) (cs : List Char) : Option (List (String × Json) × List Char) :=
  match fuel with
  | 0 => none
  | fuel + 1 =>
    match skipWs cs with
    | [] => none
    | c :: rest =>
      if c = '"' then
        match parseStringBody fuel rest with
        | none => none
        | some (key, r1) =>
          match skipWs r1 with
          | ':' :: r2 =>
            match parseValue fuel r2 with
            | none => none
            | some (v, r3) =>
              match skipWs r3 with
              | ',' :: r4 =>
                (parseMembersLoop fuel r4).map
                  (fun p => ((String.mk key, v) :: p.1, p.2))
              | d :: r4 =>
                if d = rbrace then some ([(String.mk key, v)], r4) else none
              | [] => none
          | _ => none
      else none

/-- Array elements after the opening bracket. -/
def parseElems (fuel : Nat) (cs : List Char) : Option (List Json × List Char) :=
  match fuel with
  | 0 => none
  | fuel + 1 =>
    match skipWs cs with
    | [] => none
    | c :: rest =>
      if c = ']' then some ([], rest)
      else parseElemsLoop fuel (c :: rest)

/-- One or more array elements separated by commas, ended by `]`. -/
def parseElemsLoop (fuel : Nat) (cs : List Char) : Option (List Json × List Char) :=
  match fuel with
  | 0 => none
  | fuel + 1 =>
    match skipWs cs with
    | [] => none
    | c :: rest =>
      match parseValue fuel (c :: rest) with
      | none => none
      | some (v, r1) =>
        match skipWs r1 with
        | ',' :: r2 => (parseElemsLoop fuel r2).map (fun p => (v :: p.1, p.2))
        | d :: r2 => if d = ']' then some ([v], r2) else none
        | [] => none

end

/-- Model of `JSON.parse`: parse one value, then require only trailing
whitespace; `none` models a thrown `SyntaxError`.  The fuel bounds the
recursion depth and exceeds any depth reachable on the given input. -/
def parseJsonChars (cs : List Char) : Option Json :=
  match parseValue (2 * cs.length + 4) cs with
  | some (v, rest) => if (skipWs rest).isEmpty then some v else none
  | none => none

/-- JavaScript `String.prototype.trim` (drop whitespace on both ends). -/
def trimChars (cs : List Char) : List Char :=
  ((cs.dropWhile isJsWs).reverse.dropWhile isJsWs).reverse

/-- Does the input start with a (case-insensitive) markdown fence
opener for JSON: the 7 characters matched by the literal part of the
regex `/```json/i`? -/
def matchesFenceAt (cs : List Char) : Bool :=
  match cs with
  | a :: b :: c :: d :: e :: f :: g :: _ =>
    isBq a && isBq b && isBq c &&
    d.toLower = 'j' && e.toLower = 's' && f.toLower = 'o' && g.toLower = 'n'
  | _ => false

/-- Do three consecutive backticks start here? -/
def tripleBqAt (cs : List Char) : Bool :=
  match cs with
  | a :: b :: c :: _ => isBq a && isBq b && isBq c
  | _ => false

/-- Split the input at the first run of three consecutive backticks:
the part before it and the part after the three backticks. -/
def splitAtTripleBq : List Char → Option (List Char × List Char)
  | [] => none
  | c :: rest =>
    if tripleBqAt (c :: rest) then some ([], rest.drop 2)
    else (splitAtTripleBq rest).map (fun p => (c :: p.1, p.2))


/-- Global replacement for the regex `/```json\s*([\s\S]*?)\s*```/gi`
with `'$1'`: each complete fenced block is replaced by its trimmed
body; an opener with no closing triple backtick is left alone (the
regex then has no complete match there, and none later either since a
later match would need a closing fence too).  The fuel is structural
bookkeeping only: by `splitAtTripleBq_shorter` every recursive call is
on a strictly shorter list, so the initial fuel `length + 1` is never
exhausted. -/
def stripFences1Go : Nat → List Char → List Char
  | 0, cs => cs
  | _ + 1, [] => []
  | fuel + 1, c :: rest =>
    if matchesFenceAt (c :: rest) then
      match splitAtTripleBq (rest.drop 6) with
      | some (mid, after) => trimChars mid ++ stripFences1Go fuel after
      | none => c :: stripFences1Go fuel rest
    else c :: stripFences1Go fuel rest

def stripFences1 (cs : List Char) : List Char := stripFences1Go (cs.length + 1) cs

/-- Whole-string replacement for the anchored regex
`/^```\s*([\s\S]*?)\s*```$/g`: when the string starts and ends with a
triple backtick (without overlap) it is replaced by the trimmed body,
otherwise it is unchanged. -/
def stripFences2 (cs : List Char) : List Char :=
  if 6 ≤ cs.length && (cs.take 3).all isBq && (cs.reverse.take 3).all isBq then
    trimChars ((cs.drop 3).take (cs.length - 6))
  else cs

/-- After a `[`, try to match `\d+\]`; on success return the input
after the closing bracket. -/
def citTail : List Char → Option (List Char)
  | [] => none
  | c :: cs =>
    if isDigitCh c then citTail cs
    else if c = ']' then some cs
    else none

/-- One or more digits then `]` (the part of `/\[\d+\]/` after the
opening bracket). -/
def citMatch : List Char → Option (List Char)
  | [] => none
  | c :: cs => if isDigitCh c then citTail cs else none



/-- Global replacement for `/\[\d+\]/g` with `''`: bracketed runs of
digits are removed; scanning resumes after each removed marker.  By
`citMatch_shorter` every recursive call is on a strictly shorter list,
so the initial fuel `length + 1` is never exhausted. -/
def removeCitationsGo : Nat → List Char → List Char
  | 0, cs => cs
  | _ + 1, [] => []
  | fuel + 1, c :: rest =>
    if c = '[' then
      match citMatch rest with
      | some rest2 => removeCitationsGo fuel rest2
      | none => c :: removeCitationsGo fuel rest
    else c :: removeCitationsGo fuel rest

def removeCitations (cs : List Char) : List Char := removeCitationsGo (cs.length + 1) cs

/-- After a `,`, try to match `\s*([}\]])`; on success return the
captured bracket and the input after it. -/
def commaMatch : List Char → Option (Char × List Char)
  | [] => none
  | c :: cs =>
    if isJsWs c then commaMatch cs
    else if c = rbrace ∨ c = ']' then some (c, cs)
    else none


/-- Global replacement for `/,\s*([}\]])/g` with `'$1'`: a comma whose
next non-whitespace character is `}` or `]` is removed together with
the intervening whitespace (the bracket is kept); scanning resumes
after the bracket.  By `commaMatch_shorter` every recursive call is on
a strictly shorter list, so the initial fuel `length + 1` is never
exhausted. -/
def removeTrailingCommasGo : Nat → List Char → List Char
  | 0, cs => cs
  | _ + 1, [] => []
  | fuel + 1, c :: rest =>
    if c = ',' then
      match commaMatch rest with
      | some (d, rest2) => d :: removeTrailingCommasGo fuel rest2
      | none => c :: removeTrailingCommasGo fuel rest
    else c :: removeTrailingCommasGo fuel rest

def removeTrailingCommas (cs : List Char) : List Char :=
  removeTrailingCommasGo (cs.length + 1) cs

/-- `Array.prototype.findIndex` (as `Option Nat` instead of `-1`). -/
def findIndexJs (p : α → Bool) : List α → Option Nat
  | [] => none
  | a :: rest => if p a then some 0 else (findIndexJs p rest).map (fun n => n + 1)

/-- Index of the first `{` (JavaScript `indexOf`), if any. -/
def firstBraceIdx (cs : List Char) : Option Nat :=
  findIndexJs (fun c => c = lbrace) cs

/-- Index of the last `}` (JavaScript `lastIndexOf`), if any. -/
def lastBraceIdx (cs : List Char) : Option Nat :=
  (findIndexJs (fun c => c = rbrace) cs.reverse).map (fun i => cs.length - 1 - i)

/-- JavaScript `String.prototype.substring`: both arguments are clamped
to the string bounds and swapped when out of order. -/
def jsSubstring (cs : List Char) (a b : Nat) : List Char :=
  let a' := min a cs.length
  let b' := min b cs.length
  (cs.drop (min a' b')).take (max a' b' - min a' b')

/-- The cleanup pipeline of `cleanAndParseJSON` before the brace
truncation: strip fenced code blocks (trimming after each step, as the
source does), then remove bracketed citation markers. -/
def preTruncText (cs : List Char) : List Char :=
  removeCitations (trimChars (stripFences2 (trimChars (stripFences1 cs))))

/-- The cleanup pipeline of `cleanAndParseJSON` before the first parse
attempt: `preTruncText`, then truncation to the span from the first
`{` to the last `}` when both exist. -/
def cleanedText (cs : List Char) : List Char :=
  match firstBraceIdx (preTruncText cs), lastBraceIdx (preTruncText cs) with
  | some i, some j => jsSubstring (preTruncText cs) i (j + 1)
  | _, _ => preTruncText cs

/-- The fallback repair of `cleanAndParseJSON`: remove trailing commas,
then append closing braces to balance the count of `{` against `}`. -/
def repairedText (cs : List Char) : List Char :=
  let fixed := removeTrailingCommas cs
  fixed ++ List.replicate (fixed.count lbrace - fixed.count rbrace) rbrace

/-- Embedding of `cleanAndParseJSON` applied to a defined string: clean
the text, try a strict parse, then try the repaired text, and fall back
to the empty record. -/
def cleanCore (cs : List Char) : Json :=
  let cleaned := cleanedText cs
  match parseJsonChars cleaned with
  | some v => v
  | none =>
    match parseJsonChars (repairedText cleaned) with
    | some v => v
    | none => Json.obj []

/-- Embedding of `cleanAndParseJSON` (src/services/geminiService.ts).
The argument models a JavaScript `string | undefined | null`: `none`
is `undefined`/`null` and, together with the empty string, is caught
by the falsy check `if (!text) return` in the source.  The function is
total: a thrown exception is not representable in its type. -/
def cleanAndParseJSON (text : Option String) : Json :=
  match text with
  | none => Json.obj []
  | some t => if t = "" then Json.obj [] else cleanCore t.data

/-- Does `sub` occur at the start of `hay`? -/
def hasPrefixCh : List Char → List Char → Bool
  | _, [] => true
  | [], _ :: _ => false
  | c :: cs, d :: ds => c = d && hasPrefixCh cs ds

/-- JavaScript `String.prototype.includes`. -/
def hasSubstrCh : List Char → List Char → Bool
  | [], sub => hasPrefixCh [] sub
  | c :: t, sub => hasPrefixCh (c :: t) sub || hasSubstrCh t sub

def strContains (hay sub : String) : Bool := hasSubstrCh hay.data sub.data

/-- A thrown JavaScript error as inspected by `isCriticalError`: its
`message` (`''` when absent) and numeric `status` (`0` when absent). -/
structure JsError where
  message : String
  status : Nat
deriving Repr, DecidableEq

/-- Embedding of `isCriticalError` (src/services/geminiService.ts):
authorization / not-found errors that must never be retried. -/
def isCriticalError (e : JsError) : Bool :=
  strContains e.message "403" ||
  e.status == 403 ||
  strContains e.message "The caller does not have permission" ||
  strContains e.message "Requested entity was not found"

/-- Result of a `withRetry` run: normal return or a raised error
(`raised none` models JavaScript throwing the undefined `lastError`
when `retries = 0`). -/
inductive RetryOutcome (α : Type) where
  | ok (v : α) : RetryOutcome α
  | raised (e : Option JsError) : RetryOutcome α
deriving Repr

/-- Observable trace of a `withRetry` run: how many times the wrapped
operation was invoked, the `setTimeout` delays awaited (in ms, in
order), and the final outcome. -/
structure RetryTrace (α : Type) where
  attempts : Nat
  delays : List Nat
  outcome : RetryOutcome α
deriving Repr

/-- Loop of `withRetry`: `remaining = retries - i` iterations are left,
`i` is the current attempt index.  Mirrors the source exactly: on a
non-critical failure the delay `1000 * 2^i` is awaited (even on the
last iteration) and the loop continues; on a critical failure the
error is re-raised at once; after the loop the last captured error is
raised. -/
def withRetryGo (fn : Nat → Except JsError α) :
    Nat → Nat → Option JsError → Nat → List Nat → RetryTrace α
  | 0, _, lastError, attempts, delays => ⟨attempts, delays, .raised lastError⟩
  | remaining + 1, i, _, attempts, delays =>
    match fn i with
    | .ok v => ⟨attempts + 1, delays, .ok v⟩
    | .error e =>
      if isCriticalError e then ⟨attempts + 1, delays, .raised (some e)⟩
      else withRetryGo fn remaining (i + 1) (some e) (attempts + 1) (delays ++ [1000 * 2 ^ i])

/-- Embedding of `withRetry(fn, retries)` (src/services/geminiService.ts).
The operation is modelled as a function from the attempt index to its
outcome on that attempt. -/
def withRetry (fn : Nat → Except JsError α) (retries : Nat) : RetryTrace α :=
  withRetryGo fn retries 0 none 0 []

/-- Pipeline stage of one unit (the `status` union type, src types). -/
inductive SlideStatus where
  | pending : SlideStatus
  | analyzing : SlideStatus
  | analyzed : SlideStatus
  | generating_image : SlideStatus
  | generating_assets : SlideStatus
  | generating_video : SlideStatus
  | complete : SlideStatus
  | error : SlideStatus
  | editing_area : SlideStatus
deriving Repr, DecidableEq

/-- The `SlideAnalysis` record at runtime.  Every field is optional:
the values actually flowing through the program are built by spreading
a parsed JSON object over defaults, so any field can be absent
regardless of the TypeScript annotations.  A JSON-`null`-valued field
is modelled as absent. -/
structure SlideAnalysis where
  actionTitle : Option String := none
  subtitle : Option String := none
  keyTakeaways : Option (List String) := none
  script : Option String := none
  visualPrompt : Option String := none
  assetPrompts : Option (List String) := none
  keywords : Option (List String) := none
  consultingLayout : Option String := none
  suggestedMotion : Option String := none
  colorPalette : Option (List String) := none
  mood : Option String := none
deriving Repr, DecidableEq

structure GeneratedAsset where
  id : String
  prompt : String
  imageUrl : String
deriving Repr, DecidableEq

structure GroundingSource where
  title : Option String
  uri : Option String
deriving Repr, DecidableEq

/-- One processing unit (`SlideData`, src types). -/
structure SlideData where
  id : String
  originalImage : String
  pageIndex : Nat
  status : SlideStatus
  enhancedImage : Option String := none
  analysis : Option SlideAnalysis := none
  generatedAssets : Option (List GeneratedAsset) := none
  videoUrl : Option String := none
  transitionVideoUrl : Option String := none
  videoPosition : Option String := none
  transitionType : Option String := none
  error : Option String := none
  groundingSources : Option (List GroundingSource) := none
deriving Repr, DecidableEq

/-- A `Partial<SlideData>` object-spread update.  `none` means the key
is absent (old value kept).  For the media fields the inner `Option`
distinguishes an explicit `undefined` value, which object spread does
write over the old value. -/
structure SlideUpdates where
  status : Option SlideStatus := none
  analysis : Option SlideAnalysis := none
  error : Option String := none
  enhancedImage : Option (Option String) := none
  videoUrl : Option (Option String) := none
  transitionVideoUrl : Option (Option String) := none
  videoPosition : Option String := none
  transitionType : Option String := none
  groundingSources : Option (List GroundingSource) := none
deriving Repr

/-- `\x7b ...slide, ...updates \x7d`: present update fields replace the
old ones wholesale. -/
def applyUpdates (s : SlideData) (u : SlideUpdates) : SlideData :=
  { s with
    status := match u.status with | some v => v | none => s.status
    analysis := match u.analysis with | some v => some v | none => s.analysis
    error := match u.error with | some v => some v | none => s.error
    enhancedImage := match u.enhancedImage with | some v => v | none => s.enhancedImage
    videoUrl := match u.videoUrl with | some v => v | none => s.videoUrl
    transitionVideoUrl := match u.transitionVideoUrl with | some v => v | none => s.transitionVideoUrl
    videoPosition := match u.videoPosition with | some v => some v | none => s.videoPosition
    transitionType := match u.transitionType with | some v => some v | none => s.transitionType
    groundingSources := match u.groundingSources with | some v => some v | none => s.groundingSources }

/-- Embedding of `updateSlideState(index, updates)` (src/App.tsx): a
by-index functional update that leaves the list unchanged when the
index is out of bounds. -/
def updateSlideState (slides : List SlideData) (i : Nat) (u : SlideUpdates) : List SlideData :=
  match slides[i]? with
  | none => slides
  | some s => slides.set i (applyUpdates s u)

/-- Embedding of `handleUpdateSlide(id, updates)` (src/App.tsx): find
the first slide with the given id and apply the update there; no-op
when the id is absent.  (The follow-up persistence write is an
external side effect outside this model.) -/
def handleUpdateSlide (slides : List SlideData) (id : String) (u : SlideUpdates) : List SlideData :=
  match findIndexJs (fun s => s.id = id) slides with
  | none => slides
  | some i => updateSlideState slides i u

/-- Field-wise object spread `\x7b ...a, ...b \x7d` for partial
analysis records: a field present in `b` wins, otherwise `a`'s value
is kept. -/
def mergeField (old new : Option α) : Option α :=
  match new with
  | some v => some v
  | none => old

/-- `\x7b ...a, ...b \x7d` on two analysis records. -/
def mergeAnalysis (a b : SlideAnalysis) : SlideAnalysis :=
  { actionTitle := mergeField a.actionTitle b.actionTitle
    subtitle := mergeField a.subtitle b.subtitle
    keyTakeaways := mergeField a.keyTakeaways b.keyTakeaways
    script := mergeField a.script b.script
    visualPrompt := mergeField a.visualPrompt b.visualPrompt
    assetPrompts := mergeField a.assetPrompts b.assetPrompts
    keywords := mergeField a.keywords b.keywords
    consultingLayout := mergeField a.consultingLayout b.consultingLayout
    suggestedMotion := mergeField a.suggestedMotion b.suggestedMotion
    colorPalette := mergeField a.colorPalette b.colorPalette
    mood := mergeField a.mood b.mood }

/-- The analysis object built by `analyzeSlideContent`
(src/services/geminiService.ts) from the parsed model response: layout,
palette and mood defaults are overridden by parsed fields, and the
three list fields are forced to lists (empty when absent or not an
array). -/
def initialAnalysisResult (parsed : SlideAnalysis) : SlideAnalysis :=
  { parsed with
    consultingLayout := some (parsed.consultingLayout.getD "editorial-left")
    colorPalette := some (parsed.colorPalette.getD ["#ffffff", "#000000"])
    mood := some (parsed.mood.getD "Sophisticated")
    keyTakeaways := some (parsed.keyTakeaways.getD [])
    assetPrompts := some (parsed.assetPrompts.getD [])
    keywords := some (parsed.keywords.getD []) }

/-- The analysis object built by `deepAnalyzeSlide`
(src/services/geminiService.ts): only the layout default and the
`keyTakeaways` list default are applied; every other field is exactly
what the deep pass parsed. -/
def deepAnalysisResult (parsed : SlideAnalysis) : SlideAnalysis :=
  { parsed with
    consultingLayout := some (parsed.consultingLayout.getD "editorial-left")
    keyTakeaways := some (parsed.keyTakeaways.getD []) }

/-- Which video slot a `handleGenerateVideo` request targets. -/
inductive VideoKind where
  | background : VideoKind
  | intro : VideoKind
deriving Repr, DecidableEq

/-- Embedding of `handleGenerateVideo` (src/App.tsx).  `videoResult`
models the outcome of `generateVideoFromImage` (which may resolve to
`undefined`); `uploadResult` models `uploadMedia`'s public URL (`none`
on upload failure, in which case the local URL is kept).  On a raised
video-synthesis error the catch block marks the unit `complete` with
an informational message. -/
def handleGenerateVideo (slides : List SlideData) (id : String) (kind : VideoKind)
    (videoResult : Except JsError (Option String)) (uploadResult : Option String) :
    List SlideData :=
  match findIndexJs (fun s => s.id = id) slides with
  | none => slides
  | some i =>
    let slides1 := updateSlideState slides i { status := some .generating_video }
    match videoResult with
    | .error e =>
      handleUpdateSlide slides1 id
        { status := some .complete, error := some ("Veo fail: " ++ e.message) }
    | .ok vurl =>
      let finalVideo : Option String :=
        match vurl with
        | some u => some (match uploadResult with | some pu => pu | none => u)
        | none => none
      match kind with
      | .intro =>
        handleUpdateSlide slides1 id
          { status := some .complete, transitionVideoUrl := some finalVideo,
            transitionType := some "cinematic", videoPosition := some "intro" }
      | .background =>
        handleUpdateSlide slides1 id
          { status := some .complete, videoUrl := some finalVideo,
            videoPosition := some "background" }

/-- Embedding of `handleDeepAnalyze` (src/App.tsx).  `deepResult`
models the awaited `deepAnalyzeSlide` call: `.ok a` carries the
analysis object it resolved to (see `deepAnalysisResult`). -/
def handleDeepAnalyze (slides : List SlideData) (id : String)
    (deepResult : Except JsError SlideAnalysis) : List SlideData :=
  match findIndexJs (fun s => s.id = id) slides with
  | none => slides
  | some i =>
    let slides1 := updateSlideState slides i { status := some .analyzing }
    match deepResult with
    | .ok analysis =>
      handleUpdateSlide slides1 id { status := some .analyzed, analysis := some analysis }
    | .error _ =>
      handleUpdateSlide slides1 id
        { status := some .complete, error := some "Deep analysis failed" }

/-- Embedding of the `onEditArea` handler (src/App.tsx): the slide is
captured before the transient `editing_area` status write; when it has
an analysis, the area-edit result is spread over it (merge, not
replace) and the unit is marked complete. -/
def handleEditArea (slides : List SlideData) (id : String) (updates : SlideAnalysis) :
    List SlideData :=
  match findIndexJs (fun s => s.id = id) slides with
  | none => slides
  | some i =>
    match slides[i]? with
    | none => slides
    | some s =>
      let slides1 := updateSlideState slides i { status := some .editing_area }
      match s.analysis with
      | none => slides1
      | some a =>
        handleUpdateSlide slides1 id
          { analysis := some (mergeAnalysis a updates), status := some .complete }

/-- Embedding of the ingestion step of `handleFileUpload`
(src/App.tsx): one pending unit per rendered page image, in document
order; `ids` models `crypto.randomUUID()`. -/
def ingestSlides (images : List String) (ids : Nat → String) : List SlideData :=
  images.enum.map (fun p =>
    { id := ids p.1, originalImage := p.2, pageIndex := p.1, status := .pending })

/-- The concurrency cap `MAX_CONCURRENT` (src/App.tsx). -/
def MAX_CONCURRENT : Nat := 3

/-- Scheduler-visible state: the shared slide collection
(`slidesRef`), the in-flight id set (`processingSlideIds`) and the
in-flight counter (`activeRequests`). -/
structure SchedulerState where
  slides : List SlideData
  inFlight : List String
  active : Nat
deriving Repr

/-- The two stages with an automatic next stage
(`s.status === 'pending' || s.status === 'analyzed'`). -/
def autoAdvancing : SlideStatus → Bool
  | .pending => true
  | .analyzed => true
  | _ => false

/-- The eligibility predicate of `processQueue` (src/App.tsx). -/
def eligible (inFlight : List String) (s : SlideData) : Bool :=
  autoAdvancing s.status && !(decide (s.id ∈ inFlight))

/-- The unit a poll tick dispatches, if any: `none` when the counter
has reached the cap, otherwise the first eligible slide in collection
order (`Array.prototype.find`). -/
def dispatchedUnit (σ : SchedulerState) : Option SlideData :=
  if MAX_CONCURRENT ≤ σ.active then none
  else σ.slides.find? (eligible σ.inFlight)

/-- One synchronous tick of `processQueue` as it affects the
scheduler bookkeeping: dispatching adds the unit's id to the in-flight
set and increments the counter. -/
def pollTick (σ : SchedulerState) : SchedulerState :=
  match dispatchedUnit σ with
  | none => σ
  | some s => { σ with inFlight := s.id :: σ.inFlight, active := σ.active + 1 }

/-- The `.finally` continuation of a dispatched advancement: the
in-flight marker is cleared and the counter decremented. -/
def settleUnit (σ : SchedulerState) (id : String) : SchedulerState :=
  { σ with inFlight := σ.inFlight.erase id, active := σ.active - 1 }

/-- Interleaving semantics of one scheduler run (single-threaded
cooperative concurrency): a poll tick, the settling of one in-flight
advancement, or any rewrite of the slide collection (the asynchronous
stage work and the user-triggered handlers mutate slide fields but
never touch the in-flight bookkeeping). -/
inductive SchedStep : SchedulerState → SchedulerState → Prop where
  | tick (σ : SchedulerState) : SchedStep σ (pollTick σ)
  | settle (σ : SchedulerState) (id : String) (h : id ∈ σ.inFlight) :
      SchedStep σ (settleUnit σ id)
  | mutate (σ : SchedulerState) (slides2 : List SlideData) :
      SchedStep σ { σ with slides := slides2 }

/-- Reflexive-transitive closure of `SchedStep`. -/
inductive SchedReachable : SchedulerState → SchedulerState → Prop where
  | refl (σ : SchedulerState) : SchedReachable σ σ
  | step {σ τ ρ : SchedulerState} :
      SchedReachable σ τ → SchedStep τ ρ → SchedReachable σ ρ

/-- Initial scheduler state: no advancement in flight. -/
def initSched (slides : List SlideData) : SchedulerState := ⟨slides, [], 0⟩

/-- The scheduler bookkeeping invariant: the counter equals the size
of the in-flight set, the set has no duplicates, and the counter never
exceeds the cap. -/
def SchedInv (σ : SchedulerState) : Prop :=
  σ.active = σ.inFlight.length ∧ σ.inFlight.Nodup ∧ σ.active ≤ MAX_CONCURRENT

/-- A concrete already-complete unit used as witness input. -/
def sampleSlide : SlideData :=
  { id := "s1", originalImage := "img", pageIndex := 0, status := .complete,
    analysis := some { actionTitle := some "T" },
    videoUrl := some "local-video" }

/-- A concrete analyzed unit with a rich content record and media,
used by the counterexamples on the deep re-analysis path. -/
def analyzedSlide : SlideData :=
  { id := "s1", originalImage := "img", pageIndex := 0, status := .complete,
    analysis := some
      { actionTitle := some "Old title", mood := some "Dark",
        keyTakeaways := some ["old point"], assetPrompts := some ["old prompt"],
        keywords := some ["old"] },
    enhancedImage := some "bg.png",
    generatedAssets := some [⟨"a1", "p", "u"⟩] }

/-- A concrete pending unit and the state after one poll tick, used by
the scheduler witnesses. -/
def pendingSlide : SlideData :=
  { id := "w1", originalImage := "img", pageIndex := 0, status := .pending }

def tickedState : SchedulerState := pollTick (initSched [pendingSlide])

/-- Does the text contain a bracketed digit run `[d+]` (a match of the
citation regex)? -/
def hasCitationMarker : List Char → Bool
  | [] => false
  | c :: rest => (c = '[' && (citMatch rest).isSome) || hasCitationMarker rest

theorem splitAtTripleBq_shorter :
    ∀ (l a b : List Char), splitAtTripleBq l = some (a, b) → b.length < l.length := by
  intro l
  induction l with
  | nil => intro a b h; simp [splitAtTripleBq] at h
  | cons c rest ih =>
    intro a b h
    simp only [splitAtTripleBq] at h
    split at h
    · rename_i htr
      cases h
      have h3 : 3 ≤ (c :: rest).length := by
        unfold tripleBqAt at htr
        match rest, htr with
        | x :: y :: t, _ => simp
      have : (rest.drop 2).length = rest.length - 2 := by simp
      simp only [List.length_cons] at h3 ⊢
      omega
    · rcases Option.map_eq_some'.mp h with ⟨⟨a', b'⟩, hsp, hmk⟩
      cases hmk
      have := ih _ _ hsp
      simp only [List.length_cons]
      omega

theorem citTail_shorter : ∀ (l r : List Char), citTail l = some r → r.length < l.length := by
  intro l
  induction l with
  | nil => intro r h; simp [citTail] at h
  | cons c cs ih =>
    intro r h
    simp only [citTail] at h
    split at h
    · have := ih _ h
      simp only [List.length_cons]
      omega
    · split at h
      · cases h
        simp
      · simp at h

theorem citMatch_shorter : ∀ (l r : List Char), citMatch l = some r → r.length < l.length := by
  intro l r h
  match l, h with
  | c :: cs, h =>
    simp only [citMatch] at h
    split at h
    · have := citTail_shorter _ _ h
      simp only [List.length_cons]
      omega
    · simp at h

theorem commaMatch_shorter :
    ∀ (l : List Char) (d : Char) (r : List Char), commaMatch l = some (d, r) → r.length < l.length := by
  intro l
  induction l with
  | nil => intro d r h; simp [commaMatch] at h
  | cons c cs ih =>
    intro d r h
    simp only [commaMatch] at h
    split at h
    · have := ih _ _ h
      simp only [List.length_cons]
      omega
    · split at h
      · cases h
        simp
      · simp at h

/-- C3: an operation that always fails with a retryable error makes
`withRetry(op, 3)` perform exactly 3 attempts, wait `1000 * 2^i` ms
after the i-th failure (1000 ms after the first, 2000 ms after the
second), and finally raise the last captured error unchanged; the
delays total at least 3000 ms. -/
theorem retry_backoff_schedule {α : Type} (fn : Nat → Except JsError α) (e : Nat → JsError)
    (hfail : ∀ i, fn i = .error (e i)) (hre : ∀ i, isCriticalError (e i) = false) :
    (withRetry fn 3).attempts = 3 ∧
    (withRetry fn 3).delays = [1000 * 2 ^ 0, 1000 * 2 ^ 1, 1000 * 2 ^ 2] ∧
    (withRetry fn 3).outcome = .raised (some (e 2)) ∧
    3000 ≤ (withRetry fn 3).delays.sum := by
  have h0 := hfail 0
  have h1 := hfail 1
  have h2 := hfail 2
  have r0 := hre 0
  have r1 := hre 1
  have r2 := hre 2
  refine ⟨?_, ?_, ?_, ?_⟩ <;>
    simp [withRetry, withRetryGo, h0, h1, h2, r0, r1, r2]

theorem retry_backoff_schedule_witness :
    (withRetry (fun _ => (.error ⟨"rate limited", 429⟩ : Except JsError Unit)) 3).attempts = 3 ∧
    (withRetry (fun _ => (.error ⟨"rate limited", 429⟩ : Except JsError Unit)) 3).delays =
      [1000 * 2 ^ 0, 1000 * 2 ^ 1, 1000 * 2 ^ 2] ∧
    (withRetry (fun _ => (.error ⟨"rate limited", 429⟩ : Except JsError Unit)) 3).outcome =
      .raised (some ⟨"rate limited", 429⟩) ∧
    3000 ≤ (withRetry (fun _ => (.error ⟨"rate limited", 429⟩ : Except JsError Unit)) 3).delays.sum :=
  retry_backoff_schedule (fun _ => .error ⟨"rate limited", 429⟩) (fun _ => ⟨"rate limited", 429⟩)
    (fun _ => rfl)
    (fun _ => (by decide : isCriticalError ⟨"rate limited", 429⟩ = false))

/-- C4: an operation that always fails with a fatal-classified error
(message containing `403`, status 403, permission-denied or
entity-not-found message) makes `withRetry(op, 3)` perform exactly one
attempt and re-raise that error with no delay. -/
theorem retry_fatal_short_circuit {α : Type} (fn : Nat → Except JsError α) (e : Nat → JsError)
    (hfail : ∀ i, fn i = .error (e i)) (hc : ∀ i, isCriticalError (e i) = true) :
    (withRetry fn 3).attempts = 1 ∧
    (withRetry fn 3).delays = [] ∧
    (withRetry fn 3).outcome = .raised (some (e 0)) := by
  have h0 := hfail 0
  have c0 := hc 0
  refine ⟨?_, ?_, ?_⟩ <;> simp [withRetry, withRetryGo, h0, c0]

theorem retry_fatal_short_circuit_witness :
    (withRetry (fun _ => (.error ⟨"The caller does not have permission", 0⟩ : Except JsError Unit)) 3).attempts = 1 ∧
    (withRetry (fun _ => (.error ⟨"The caller does not have permission", 0⟩ : Except JsError Unit)) 3).delays = [] ∧
    (withRetry (fun _ => (.error ⟨"The caller does not have permission", 0⟩ : Except JsError Unit)) 3).outcome =
      .raised (some ⟨"The caller does not have permission", 0⟩) :=
  retry_fatal_short_circuit (fun _ => .error ⟨"The caller does not have permission", 0⟩)
    (fun _ => ⟨"The caller does not have permission", 0⟩) (fun _ => rfl)
    (fun _ => (by decide : isCriticalError ⟨"The caller does not have permission", 0⟩ = true))

/-- C6: the recovery parser produces the specified repairs: a fenced
JSON block parses to its content; a trailing comma before a closing
brace is removed; an unbalanced-brace input is repaired by appending
closing braces; non-JSON garbage yields the empty record. -/
theorem parser_repairs_expected_shapes :
    cleanAndParseJSON (some ("\x60\x60\x60json\n\x7b\"a\":1\x7d\n\x60\x60\x60")) =
      Json.obj [("a", Json.num "1")] ∧
    cleanAndParseJSON (some "\x7b\"a\":1,\x7d") = Json.obj [("a", Json.num "1")] ∧
    cleanAndParseJSON (some "\x7b\"a\":\x7b\"b\":1\x7d") =
      Json.obj [("a", Json.obj [("b", Json.num "1")])] ∧
    cleanAndParseJSON (some "hello") = Json.obj [] :=
  ⟨rfl, rfl, rfl, rfl⟩

theorem findIndexJs_split {α : Type} (p : α → Bool) :
    ∀ (pre : List α) (s : α) (post : List α),
      (∀ t ∈ pre, p t = false) → p s = true →
      findIndexJs p (pre ++ s :: post) = some pre.length := by
  intro pre
  induction pre with
  | nil => intro s post _ hs; simp [findIndexJs, hs]
  | cons a rest ih =>
    intro s post hpre hs
    have ha : p a = false := hpre a (by simp)
    have hrest : ∀ t ∈ rest, p t = false := fun t ht => hpre t (by simp [ht])
    simp [findIndexJs, ha, ih s post hrest hs]

theorem findIndexJs_eq_some {α : Type} (p : α → Bool) :
    ∀ (l : List α) (i : Nat), findIndexJs p l = some i →
      ∃ pre x post, l = pre ++ x :: post ∧ pre.length = i ∧ p x = true ∧
        ∀ t ∈ pre, p t = false := by
  intro l
  induction l with
  | nil => intro i h; simp [findIndexJs] at h
  | cons a rest ih =>
    intro i h
    simp only [findIndexJs] at h
    split at h
    · rename_i hpa
      cases h
      exact ⟨[], a, rest, by simp, rfl, hpa, by simp⟩
    · rename_i hpa
      rcases Option.map_eq_some'.mp h with ⟨i', hi', rfl⟩
      rcases ih i' hi' with ⟨pre, x, post, hdec, hlen, hpx, hpre⟩
      refine ⟨a :: pre, x, post, by simp [hdec], by simp [hlen], hpx, ?_⟩
      intro t ht
      rcases List.mem_cons.mp ht with rfl | ht
      · simpa using hpa
      · exact hpre t ht

theorem getElem?_split {α : Type} :
    ∀ (pre : List α) (s : α) (post : List α), (pre ++ s :: post)[pre.length]? = some s := by
  intro pre
  induction pre with
  | nil => intro s post; simp
  | cons a rest ih => intro s post; simpa using ih s post

theorem set_split {α : Type} :
    ∀ (pre : List α) (s x : α) (post : List α),
      (pre ++ s :: post).set pre.length x = pre ++ x :: post := by
  intro pre
  induction pre with
  | nil => intro s x post; simp
  | cons a rest ih => intro s x post; simp [ih]

theorem updateSlideState_split (pre post : List SlideData) (s : SlideData) (u : SlideUpdates) :
    updateSlideState (pre ++ s :: post) pre.length u = pre ++ applyUpdates s u :: post := by
  have h := getElem?_split pre s post
  simp only [updateSlideState, h, set_split]

theorem handleUpdateSlide_split (pre post : List SlideData) (s : SlideData) (id : String)
    (u : SlideUpdates) (hpre : ∀ t ∈ pre, t.id ≠ id) (hs : s.id = id) :
    handleUpdateSlide (pre ++ s :: post) id u = pre ++ applyUpdates s u :: post := by
  have hfi : findIndexJs (fun t => t.id = id) (pre ++ s :: post) = some pre.length :=
    findIndexJs_split _ pre s post (fun t ht => by simp [hpre t ht]) (by simp [hs])
  simp [handleUpdateSlide, hfi, updateSlideState_split]

/-- C8: when the video-synthesis call raises, `handleGenerateVideo`
marks the unit `complete` (not `error`, not stuck in
`generating_video`) and records an informational message, leaving all
other fields (analysis, media) unchanged. -/
theorem video_failure_returns_complete (pre post : List SlideData) (s : SlideData)
    (id : String) (kind : VideoKind) (e : JsError) (upload : Option String)
    (hpre : ∀ t ∈ pre, t.id ≠ id) (hs : s.id = id) :
    ∃ s', handleGenerateVideo (pre ++ s :: post) id kind (.error e) upload =
        pre ++ s' :: post ∧
      s'.status = .complete ∧
      s'.status ≠ .error ∧
      s'.status ≠ .generating_video ∧
      s'.error = some ("Veo fail: " ++ e.message) ∧
      s'.analysis = s.analysis ∧
      s'.enhancedImage = s.enhancedImage ∧
      s'.videoUrl = s.videoUrl ∧
      s'.transitionVideoUrl = s.transitionVideoUrl ∧
      s'.generatedAssets = s.generatedAssets := by
  have hfi : findIndexJs (fun t => t.id = id) (pre ++ s :: post) = some pre.length :=
    findIndexJs_split _ pre s post (fun t ht => by simp [hpre t ht]) (by simp [hs])
  refine ⟨applyUpdates (applyUpdates s { status := some .generating_video })
      { status := some .complete, error := some ("Veo fail: " ++ e.message) },
    ?_, by simp [applyUpdates], by simp [applyUpdates], by simp [applyUpdates],
    by simp [applyUpdates], by simp [applyUpdates], by simp [applyUpdates],
    by simp [applyUpdates], by simp [applyUpdates], by simp [applyUpdates]⟩
  simp only [handleGenerateVideo, hfi, updateSlideState_split]
  exact handleUpdateSlide_split pre post _ id _ hpre (by simp [applyUpdates, hs])

theorem video_failure_returns_complete_witness :
    ∃ s', handleGenerateVideo ([] ++ sampleSlide :: []) "s1" .background
        (.error ⟨"deadline exceeded", 0⟩) none = [] ++ s' :: [] ∧
      s'.status = .complete ∧
      s'.status ≠ .error ∧
      s'.status ≠ .generating_video ∧
      s'.error = some ("Veo fail: " ++ "deadline exceeded") ∧
      s'.analysis = sampleSlide.analysis ∧
      s'.enhancedImage = sampleSlide.enhancedImage ∧
      s'.videoUrl = sampleSlide.videoUrl ∧
      s'.transitionVideoUrl = sampleSlide.transitionVideoUrl ∧
      s'.generatedAssets = sampleSlide.generatedAssets :=
  video_failure_returns_complete [] [] sampleSlide "s1" .background ⟨"deadline exceeded", 0⟩
    none (fun t ht => by simp at ht) rfl

/-- C9 (amended): a user-triggered deep re-analysis replaces `content`
wholesale with the deep pass's result (existing content fields not
returned by the deep pass are not preserved), while `generatedAssets`,
`enhancedImage` and the video references are left unchanged and the
unit moves to `analyzed`. -/
theorem deep_analyze_replaces_content (pre post : List SlideData) (s : SlideData)
    (id : String) (parsed : SlideAnalysis)
    (hpre : ∀ t ∈ pre, t.id ≠ id) (hs : s.id = id) :
    ∃ s', handleDeepAnalyze (pre ++ s :: post) id (.ok (deepAnalysisResult parsed)) =
        pre ++ s' :: post ∧
      s'.analysis = some (deepAnalysisResult parsed) ∧
      s'.status = .analyzed ∧
      s'.generatedAssets = s.generatedAssets ∧
      s'.enhancedImage = s.enhancedImage ∧
      s'.videoUrl = s.videoUrl ∧
      s'.transitionVideoUrl = s.transitionVideoUrl := by
  have hfi : findIndexJs (fun t => t.id = id) (pre ++ s :: post) = some pre.length :=
    findIndexJs_split _ pre s post (fun t ht => by simp [hpre t ht]) (by simp [hs])
  refine ⟨applyUpdates (applyUpdates s { status := some .analyzing })
      { status := some .analyzed, analysis := some (deepAnalysisResult parsed) },
    ?_, by simp [applyUpdates], by simp [applyUpdates], by simp [applyUpdates],
    by simp [applyUpdates], by simp [applyUpdates], by simp [applyUpdates]⟩
  simp only [handleDeepAnalyze, hfi, updateSlideState_split]
  exact handleUpdateSlide_split pre post _ id _ hpre (by simp [applyUpdates, hs])

/-- Counterexample to C9 as stated: a deep re-analysis whose parsed
result has no `mood` field erases the previously set `mood` (the merge
claimed by the spec would have preserved it). -/
theorem deep_analyze_replaces_content_cex :
    (((handleDeepAnalyze [analyzedSlide] "s1"
          (.ok (deepAnalysisResult {}))).head?.bind (fun s => s.analysis)).bind
        (fun a => a.mood)) = none ∧
    (analyzedSlide.analysis.bind (fun a => a.mood)) = some "Dark" :=
  ⟨rfl, rfl⟩

/-- C10 (amended): units are created at ingestion with no `content`;
the initial analysis result always defines the three list fields
(defaulting them to empty lists); the deep re-analysis result defaults
only `keyTakeaways` and passes `assetPrompts` / `keywords` through
unchanged (possibly absent); an area-edit merge preserves fields the
edit does not return. -/
theorem content_list_field_defaulting :
    (∀ (images : List String) (ids : Nat → String) (s : SlideData),
        s ∈ ingestSlides images ids → s.analysis = none ∧ s.status = .pending) ∧
    (∀ p : SlideAnalysis,
        (initialAnalysisResult p).keyTakeaways = some (p.keyTakeaways.getD []) ∧
        (initialAnalysisResult p).assetPrompts = some (p.assetPrompts.getD []) ∧
        (initialAnalysisResult p).keywords = some (p.keywords.getD [])) ∧
    (∀ p : SlideAnalysis,
        (deepAnalysisResult p).keyTakeaways = some (p.keyTakeaways.getD []) ∧
        (deepAnalysisResult p).assetPrompts = p.assetPrompts ∧
        (deepAnalysisResult p).keywords = p.keywords) ∧
    (∀ a b : SlideAnalysis, b.assetPrompts = none →
        (mergeAnalysis a b).assetPrompts = a.assetPrompts) := by
  refine ⟨?_, ?_, ?_, ?_⟩
  · intro images ids s hs
    simp only [ingestSlides, List.mem_map] at hs
    rcases hs with ⟨p, _, rfl⟩
    exact ⟨rfl, rfl⟩
  · intro p; exact ⟨rfl, rfl, rfl⟩
  · intro p; exact ⟨rfl, rfl, rfl⟩
  · intro a b hb; simp [mergeAnalysis, mergeField, hb]

theorem content_list_field_defaulting_witness :
    (∀ (s : SlideData), s ∈ ingestSlides ["pg1", "pg2"] (fun n => toString n) →
        s.analysis = none ∧ s.status = .pending) ∧
    ((initialAnalysisResult {}).keyTakeaways = some (([] : List String)) ∧
      (initialAnalysisResult {}).assetPrompts = some ([]) ∧
      (initialAnalysisResult {}).keywords = some ([])) ∧
    ((deepAnalysisResult {}).keyTakeaways = some ([]) ∧
      (deepAnalysisResult {}).assetPrompts = none ∧
      (deepAnalysisResult {}).keywords = none) ∧
    ((mergeAnalysis { assetPrompts := some ["keep"] } {}).assetPrompts = some ["keep"]) := by
  refine ⟨fun s hs => (content_list_field_defaulting.1 ["pg1", "pg2"] (fun n => toString n) s hs),
    content_list_field_defaulting.2.1 {}, content_list_field_defaulting.2.2.1 {},
    content_list_field_defaulting.2.2.2 { assetPrompts := some ["keep"] } {} rfl⟩

/-- Counterexample to C10 as stated: a deep re-analysis write leaves
`assetPrompts` undefined (the parsed deep result did not return it and
`deepAnalyzeSlide` defaults only `keyTakeaways`), even though the
field was previously a list. -/
theorem content_list_field_defaulting_cex :
    (((handleDeepAnalyze [analyzedSlide] "s1"
          (.ok (deepAnalysisResult {}))).head?.bind (fun s => s.analysis)).bind
        (fun a => a.assetPrompts)) = none ∧
    (analyzedSlide.analysis.bind (fun a => a.assetPrompts)) = some ["old prompt"] ∧
    (((handleDeepAnalyze [analyzedSlide] "s1"
          (.ok (deepAnalysisResult {}))).head?.bind (fun s => s.analysis)).isSome = true) :=
  ⟨rfl, rfl, rfl⟩

theorem find?_split {α : Type} (p : α → Bool) :
    ∀ (l : List α) (a : α), l.find? p = some a →
      p a = true ∧ ∃ pre post, l = pre ++ a :: post ∧ ∀ t ∈ pre, p t = false := by
  intro l
  induction l with
  | nil => intro a h; simp at h
  | cons c rest ih =>
    intro a h
    simp only [List.find?] at h
    cases hpc : p c with
    | true =>
      rw [hpc] at h
      cases h
      exact ⟨hpc, [], rest, rfl, by simp⟩
    | false =>
      rw [hpc] at h
      obtain ⟨hpa, pre, post, hdec, hpre⟩ := ih a h
      refine ⟨hpa, c :: pre, post, by simp [hdec], ?_⟩
      intro t ht
      rcases List.mem_cons.mp ht with rfl | ht
      · exact hpc
      · exact hpre t ht

/-- What a successful dispatch tells us: the counter was strictly
below the cap, the dispatched slide is eligible, and it is the first
eligible slide in collection order. -/
theorem dispatchedUnit_spec {σ : SchedulerState} {s : SlideData}
    (h : dispatchedUnit σ = some s) :
    σ.active < MAX_CONCURRENT ∧ eligible σ.inFlight s = true ∧
    ∃ pre post, σ.slides = pre ++ s :: post ∧ ∀ t ∈ pre, eligible σ.inFlight t = false := by
  unfold dispatchedUnit at h
  split at h
  · simp at h
  · rename_i hle
    obtain ⟨hel, pre, post, hdec, hpre⟩ := find?_split _ _ _ h
    exact ⟨by omega, hel, pre, post, hdec, hpre⟩

theorem eligible_spec {inFlight : List String} {s : SlideData}
    (h : eligible inFlight s = true) :
    (s.status = .pending ∨ s.status = .analyzed) ∧ s.id ∉ inFlight := by
  simp only [eligible, Bool.and_eq_true, Bool.not_eq_true'] at h
  obtain ⟨hauto, hmem⟩ := h
  constructor
  · revert hauto
    cases s.status <;> simp [autoAdvancing]
  · simp only [decide_eq_false_iff_not] at hmem
    exact hmem

theorem schedInv_init (slides0 : List SlideData) : SchedInv (initSched slides0) :=
  ⟨rfl, List.nodup_nil, by simp [initSched, MAX_CONCURRENT]⟩

theorem schedInv_step {σ τ : SchedulerState} (hσ : SchedInv σ) (hst : SchedStep σ τ) :
    SchedInv τ := by
  obtain ⟨hlen, hnd, hcap⟩ := hσ
  cases hst with
  | tick =>
    cases hd : dispatchedUnit σ with
    | none => simp only [pollTick, hd]; exact ⟨hlen, hnd, hcap⟩
    | some s =>
      simp only [pollTick, hd]
      obtain ⟨hlt, hel, -⟩ := dispatchedUnit_spec hd
      have hnotin : s.id ∉ σ.inFlight := (eligible_spec hel).2
      refine ⟨by simp [hlen], List.nodup_cons.mpr ⟨hnotin, hnd⟩, ?_⟩
      show σ.active + 1 ≤ MAX_CONCURRENT
      omega
  | settle id hmem =>
    refine ⟨?_, hnd.erase _, ?_⟩
    · show σ.active - 1 = (σ.inFlight.erase id).length
      rw [List.length_erase_of_mem hmem, hlen]
    · show σ.active - 1 ≤ MAX_CONCURRENT
      omega
  | mutate slides2 => exact ⟨hlen, hnd, hcap⟩

theorem schedInv_reachable {slides0 : List SlideData} {σ : SchedulerState}
    (h : SchedReachable (initSched slides0) σ) : SchedInv σ := by
  induction h with
  | refl => exact schedInv_init slides0
  | step hr hs ih => exact schedInv_step ih hs

/-- C1: in every run of the scheduler, the number of in-flight
stage-advancements never exceeds `MAX_CONCURRENT`: a tick only
dispatches when the counter is strictly below the cap (at the cap a
tick is a no-op), dispatch increments the counter and the in-flight
set by exactly one, and settling decrements both by exactly one; the
counter always equals the size of the in-flight set. -/
theorem scheduler_concurrency_bound (slides0 : List SlideData) (σ : SchedulerState)
    (h : SchedReachable (initSched slides0) σ) :
    σ.active ≤ MAX_CONCURRENT ∧
    σ.inFlight.length ≤ MAX_CONCURRENT ∧
    σ.active = σ.inFlight.length ∧
    (∀ s, dispatchedUnit σ = some s → σ.active < MAX_CONCURRENT) ∧
    (MAX_CONCURRENT ≤ σ.active → pollTick σ = σ) ∧
    (∀ s, dispatchedUnit σ = some s → (pollTick σ).active = σ.active + 1 ∧
        (pollTick σ).inFlight.length = σ.inFlight.length + 1) ∧
    (∀ id, id ∈ σ.inFlight → (settleUnit σ id).active = σ.active - 1 ∧
        (settleUnit σ id).inFlight.length = σ.inFlight.length - 1) := by
  obtain ⟨hlen, hnd, hcap⟩ := schedInv_reachable h
  refine ⟨hcap, by omega, hlen, ?_, ?_, ?_, ?_⟩
  · intro s hs
    exact (dispatchedUnit_spec hs).1
  · intro hge
    have hnone : dispatchedUnit σ = none := by
      unfold dispatchedUnit
      rw [if_pos hge]
    simp only [pollTick, hnone]
  · intro s hs
    simp [pollTick, hs]
  · intro id hmem
    exact ⟨rfl, by simp [settleUnit, List.length_erase_of_mem hmem]⟩

theorem scheduler_concurrency_bound_witness :
    tickedState.active ≤ MAX_CONCURRENT ∧
    tickedState.inFlight.length ≤ MAX_CONCURRENT ∧
    tickedState.active = tickedState.inFlight.length ∧
    (∀ s, dispatchedUnit tickedState = some s → tickedState.active < MAX_CONCURRENT) ∧
    (MAX_CONCURRENT ≤ tickedState.active → pollTick tickedState = tickedState) ∧
    (∀ s, dispatchedUnit tickedState = some s →
        (pollTick tickedState).active = tickedState.active + 1 ∧
        (pollTick tickedState).inFlight.length = tickedState.inFlight.length + 1) ∧
    (∀ id, id ∈ tickedState.inFlight →
        (settleUnit tickedState id).active = tickedState.active - 1 ∧
        (settleUnit tickedState id).inFlight.length = tickedState.inFlight.length - 1) :=
  scheduler_concurrency_bound [pendingSlide] tickedState
    (SchedReachable.step (SchedReachable.refl _) (SchedStep.tick _))

/-- C2: a poll tick dispatches (if anything) the first slide in
collection order that is `pending` or `analyzed` and not already in
flight; hence a slide in `error`, `complete`, `generating_video` or
`editing_area` is never auto-selected, and since the in-flight set
never holds duplicates, at most one scheduler advancement is in
flight per unit at any instant. -/
theorem scheduler_dispatch_first_eligible (slides0 : List SlideData) (σ : SchedulerState)
    (h : SchedReachable (initSched slides0) σ) :
    σ.inFlight.Nodup ∧
    (pollTick σ).inFlight.Nodup ∧
    (∀ s, dispatchedUnit σ = some s →
      (s.status = .pending ∨ s.status = .analyzed) ∧
      s.status ≠ .error ∧ s.status ≠ .complete ∧
      s.status ≠ .generating_video ∧ s.status ≠ .editing_area ∧
      s.id ∉ σ.inFlight ∧
      ∃ pre post, σ.slides = pre ++ s :: post ∧
        ∀ t ∈ pre, eligible σ.inFlight t = false) := by
  obtain ⟨hlen, hnd, hcap⟩ := schedInv_reachable h
  have htick : (pollTick σ).inFlight.Nodup := by
    cases hd : dispatchedUnit σ with
    | none => simp only [pollTick, hd]; exact hnd
    | some s =>
      simp only [pollTick, hd]
      exact List.nodup_cons.mpr ⟨(eligible_spec (dispatchedUnit_spec hd).2.1).2, hnd⟩
  refine ⟨hnd, htick, ?_⟩
  intro s hs
  obtain ⟨hlt, hel, pre, post, hdec, hpre⟩ := dispatchedUnit_spec hs
  obtain ⟨hstat, hnotin⟩ := eligible_spec hel
  refine ⟨hstat, ?_, ?_, ?_, ?_, hnotin, pre, post, hdec, hpre⟩ <;>
    rcases hstat with h1 | h1 <;> simp [h1]

theorem scheduler_dispatch_first_eligible_witness :
    tickedState.inFlight.Nodup ∧
    (pollTick tickedState).inFlight.Nodup ∧
    (∀ s, dispatchedUnit tickedState = some s →
      (s.status = .pending ∨ s.status = .analyzed) ∧
      s.status ≠ .error ∧ s.status ≠ .complete ∧
      s.status ≠ .generating_video ∧ s.status ≠ .editing_area ∧
      s.id ∉ tickedState.inFlight ∧
      ∃ pre post, tickedState.slides = pre ++ s :: post ∧
        ∀ t ∈ pre, eligible tickedState.inFlight t = false) :=
  scheduler_dispatch_first_eligible [pendingSlide] tickedState
    (SchedReachable.step (SchedReachable.refl _) (SchedStep.tick _))

theorem skipWs_lbrace (t : List Char) : skipWs (lbrace :: t) = lbrace :: t := by
  have h : isJsonWs lbrace = false := by decide
  simp [skipWs, h]

/-- A successful `parseValue` on input whose first non-whitespace
character is `{` yields an object. -/
theorem parseValue_obj_of_lbrace (fuel : Nat) (cs : List Char) (v : Json) (r t : List Char)
    (hskip : skipWs cs = lbrace :: t) (h : parseValue fuel cs = some (v, r)) :
    v.isObj = true := by
  cases fuel with
  | zero => simp [parseValue] at h
  | succ fuel =>
    simp only [parseValue, hskip, if_true] at h
    rcases Option.map_eq_some'.mp h with ⟨⟨m, r2⟩, hm, heq⟩
    cases heq
    rfl

/-- A successful strict parse of text whose first non-whitespace
character is `{` yields an object. -/
theorem parseJsonChars_obj_of_lbrace (cs : List Char) (v : Json) (t : List Char)
    (hskip : skipWs cs = lbrace :: t) (h : parseJsonChars cs = some v) :
    v.isObj = true := by
  unfold parseJsonChars at h
  cases hpv : parseValue (2 * cs.length + 4) cs with
  | none => rw [hpv] at h; simp at h
  | some p =>
    obtain ⟨v2, r⟩ := p
    simp only [hpv] at h
    by_cases hie : (skipWs r).isEmpty = true
    · rw [if_pos hie] at h
      cases h
      exact parseValue_obj_of_lbrace _ _ _ _ _ hskip hpv
    · rw [if_neg hie] at h
      exact absurd h (by simp)

theorem removeTrailingCommasGo_head (fuel : Nat) (rest : List Char) :
    ∃ rest2, removeTrailingCommasGo fuel (lbrace :: rest) = lbrace :: rest2 := by
  cases fuel with
  | zero => exact ⟨rest, rfl⟩
  | succ fuel =>
    refine ⟨removeTrailingCommasGo fuel rest, ?_⟩
    have h : (lbrace = ',') = False := by simp [lbrace]
    simp [removeTrailingCommasGo, h]

theorem repairedText_head (rest : List Char) :
    ∃ rest2, repairedText (lbrace :: rest) = lbrace :: rest2 := by
  obtain ⟨r2, hr⟩ := removeTrailingCommasGo_head ((lbrace :: rest).length + 1) rest
  have hr' : removeTrailingCommas (lbrace :: rest) = lbrace :: r2 := hr
  refine ⟨r2 ++ List.replicate ((lbrace :: r2).count lbrace - (lbrace :: r2).count rbrace) rbrace, ?_⟩
  simp only [repairedText, hr', List.cons_append]

/-- When the first parse attempt is on text of the form `{...`, the
result of `cleanCore`'s two parse attempts is always an object. -/
theorem cleanCore_obj_of_cleaned_lbrace (cs : List Char) (rest : List Char)
    (hcl : cleanedText cs = lbrace :: rest) : (cleanCore cs).isObj = true := by
  simp only [cleanCore]
  rw [hcl]
  cases h1 : parseJsonChars (lbrace :: rest) with
  | some v =>
    simp only [h1]
    exact parseJsonChars_obj_of_lbrace _ _ _ (skipWs_lbrace rest) h1
  | none =>
    simp only [h1]
    obtain ⟨r2, hr2⟩ := repairedText_head rest
    rw [hr2]
    cases h2 : parseJsonChars (lbrace :: r2) with
    | some v =>
      simp only [h2]
      exact parseJsonChars_obj_of_lbrace _ _ _ (skipWs_lbrace r2) h2
    | none => simp only [h2]; rfl

theorem drop_split {α : Type} :
    ∀ (pre rest : List α), (pre ++ rest).drop pre.length = rest := by
  intro pre
  induction pre with
  | nil => intro rest; rfl
  | cons a t ih => intro rest; simp [ih rest]

/-- When the text has a `{` at index `i` (its first) and its last `}`
at index `j ≥ i`, the brace truncation produces a string starting with
`{`. -/
theorem trunc_head_lbrace (cs : List Char) (i j : Nat)
    (hf : firstBraceIdx cs = some i) (hl : lastBraceIdx cs = some j) (hij : i ≤ j) :
    ∃ rest, jsSubstring cs i (j + 1) = lbrace :: rest := by
  obtain ⟨pre, x, post, hdec, hlen, hpx, -⟩ := findIndexJs_eq_some _ _ _ hf
  have hx : x = lbrace := by simp at hpx; exact hpx
  subst hx
  obtain ⟨r, hr, hj⟩ : ∃ r, findIndexJs (fun c => c = rbrace) cs.reverse = some r ∧
      cs.length - 1 - r = j := by
    simpa [lastBraceIdx] using hl
  obtain ⟨pre2, y, post2, hdec2, hlen2, -, -⟩ := findIndexJs_eq_some _ _ _ hr
  have hrevlen : pre2.length + post2.length + 1 = cs.length := by
    have h := congrArg List.length hdec2
    simp at h
    omega
  have hcslen : pre.length + post.length + 1 = cs.length := by
    have h := congrArg List.length hdec
    simp at h
    omega
  have hi_lt : i < cs.length := by omega
  have hj_lt : j + 1 ≤ cs.length := by omega
  have h1 : min i cs.length = i := Nat.min_eq_left (Nat.le_of_lt hi_lt)
  have h2 : min (j + 1) cs.length = j + 1 := Nat.min_eq_left hj_lt
  have h3 : min i (j + 1) = i := Nat.min_eq_left (by omega)
  have h4 : max i (j + 1) = j + 1 := Nat.max_eq_right (by omega)
  refine ⟨post.take (j - i), ?_⟩
  simp only [jsSubstring, h1, h2, h3, h4]
  have hdrop : cs.drop i = lbrace :: post := by
    rw [hdec, ← hlen, drop_split]
  rw [hdrop, show j + 1 - i = (j - i) + 1 by omega, List.take_succ_cons]

/-- C5 (amended): the recovery parser never raises (it is a total
function) and returns the empty record on `undefined`/`null`/empty
input; whenever the cleaned text contains a `{` at or before its last
`}` — so whenever the brace truncation applies — the result is a
mapping.  (Brace-free inputs that are valid scalar or array JSON are
returned as that scalar or array; see the counterexample.) -/
theorem parser_total_mapping_shape :
    cleanAndParseJSON none = Json.obj [] ∧
    cleanAndParseJSON (some "") = Json.obj [] ∧
    (∀ (t : String) (i j : Nat),
      firstBraceIdx (preTruncText t.data) = some i →
      lastBraceIdx (preTruncText t.data) = some j → i ≤ j →
      (cleanAndParseJSON (some t)).isObj = true) := by
  refine ⟨rfl, rfl, ?_⟩
  intro t i j hf hl hij
  have hne : t ≠ "" := by
    intro he
    subst he
    rw [show preTruncText ("".data) = [] from rfl] at hf
    simp [firstBraceIdx, findIndexJs] at hf
  obtain ⟨rest, hrest⟩ := trunc_head_lbrace (preTruncText t.data) i j hf hl hij
  have hcl : cleanedText t.data = lbrace :: rest := by
    simp only [cleanedText, hf, hl]
    exact hrest
  have hobj := cleanCore_obj_of_cleaned_lbrace t.data rest hcl
  simpa [cleanAndParseJSON, hne] using hobj

theorem parser_total_mapping_shape_witness :
    firstBraceIdx (preTruncText ("x \x7b\"a\":1\x7d y".data)) = some 2 ∧
    lastBraceIdx (preTruncText ("x \x7b\"a\":1\x7d y".data)) = some 8 ∧
    (cleanAndParseJSON (some "x \x7b\"a\":1\x7d y")).isObj = true ∧
    cleanAndParseJSON none = Json.obj [] ∧
    cleanAndParseJSON (some "") = Json.obj [] :=
  ⟨rfl, rfl,
    parser_total_mapping_shape.2.2 "x \x7b\"a\":1\x7d y" 2 8 rfl rfl (by decide),
    parser_total_mapping_shape.1, parser_total_mapping_shape.2.1⟩

/-- Counterexample to C5 as stated: on brace-free valid JSON input the
parser returns a scalar (`"5"`) or an array (`"[1,2,3]"`), not a
mapping. -/
theorem parser_returns_scalar_cex :
    cleanAndParseJSON (some "5") = Json.num "5" ∧
    (cleanAndParseJSON (some "5")).isObj = false ∧
    cleanAndParseJSON (some "[1,2,3]") = Json.arr [Json.num "1", Json.num "2", Json.num "3"] ∧
    (cleanAndParseJSON (some "[1,2,3]")).isObj = false :=
  ⟨rfl, rfl, rfl, rfl⟩

theorem hasSubstrCh_cons_false {c : Char} {t sub : List Char}
    (h : hasSubstrCh (c :: t) sub = false) :
    hasPrefixCh (c :: t) sub = false ∧ hasSubstrCh t sub = false := by
  simpa [hasSubstrCh] using h

theorem hasPrefix_hasSubstr : ∀ (cs sub : List Char),
    hasPrefixCh cs sub = true → hasSubstrCh cs sub = true := by
  intro cs sub h
  cases cs with
  | nil => simpa [hasSubstrCh] using h
  | cons c t => simp [hasSubstrCh, h]

theorem matchesFence_triple : ∀ (cs : List Char),
    matchesFenceAt cs = true → tripleBqAt cs = true := by
  intro cs h
  unfold matchesFenceAt at h
  split at h
  · rename_i a b c d e f g tail
    simp only [Bool.and_eq_true] at h
    simp [tripleBqAt, h.1.1.1.1.1.1, h.1.1.1.1.1.2, h.1.1.1.1.2]
  · exact absurd h (by simp)

theorem tripleBqAt_hasPrefixCh : ∀ (cs : List Char),
    tripleBqAt cs = true → hasPrefixCh cs [bq, bq, bq] = true := by
  intro cs h
  unfold tripleBqAt at h
  split at h
  · rename_i a b c tail
    simp only [Bool.and_eq_true] at h
    simp only [isBq] at h
    simp [hasPrefixCh, h.1.1, h.1.2, h.2]
  · exact absurd h (by simp)

theorem stripFences1Go_id : ∀ (fuel : Nat) (cs : List Char),
    hasSubstrCh cs [bq, bq, bq] = false → stripFences1Go fuel cs = cs := by
  intro fuel
  induction fuel with
  | zero => intro cs _; rfl
  | succ fuel ih =>
    intro cs h
    cases cs with
    | nil => rfl
    | cons c rest =>
      have hm : matchesFenceAt (c :: rest) = false := by
        cases hmt : matchesFenceAt (c :: rest)
        · rfl
        · have := hasPrefix_hasSubstr _ _ (tripleBqAt_hasPrefixCh _ (matchesFence_triple _ hmt))
          rw [this] at h
          exact absurd h (by simp)
      obtain ⟨-, hrest⟩ := hasSubstrCh_cons_false h
      simp [stripFences1Go, hm, ih rest hrest]

theorem stripFences1_id (cs : List Char) (h : hasSubstrCh cs [bq, bq, bq] = false) :
    stripFences1 cs = cs :=
  stripFences1Go_id _ cs h

theorem stripFences2_id (cs : List Char) (h : hasSubstrCh cs [bq, bq, bq] = false) :
    stripFences2 cs = cs := by
  unfold stripFences2
  rw [if_neg]
  intro hc
  simp only [Bool.and_eq_true, decide_eq_true_eq] at hc
  obtain ⟨⟨hlen, htake⟩, -⟩ := hc
  match cs, hlen, htake, h with
  | c1 :: c2 :: c3 :: tail, _, htake, h =>
    simp only [List.take, List.all_cons, List.all_nil, Bool.and_eq_true, isBq] at htake
    have hpre : hasPrefixCh (c1 :: c2 :: c3 :: tail) [bq, bq, bq] = true := by
      simp [hasPrefixCh, htake.1, htake.2.1, htake.2.2.1]
    rw [hasPrefix_hasSubstr _ _ hpre] at h
    exact absurd h (by simp)
  | [], hlen, _, _ => simp at hlen
  | [c1], hlen, _, _ => simp at hlen
  | [c1, c2], hlen, _, _ => simp at hlen

theorem removeCitationsGo_id : ∀ (fuel : Nat) (cs : List Char),
    hasCitationMarker cs = false → removeCitationsGo fuel cs = cs := by
  intro fuel
  induction fuel with
  | zero => intro cs _; rfl
  | succ fuel ih =>
    intro cs h
    cases cs with
    | nil => rfl
    | cons c rest =>
      simp only [hasCitationMarker, Bool.or_eq_false_iff, Bool.and_eq_false_iff] at h
      obtain ⟨hhd, hrest⟩ := h
      by_cases hc : c = '['
      · have hcm : citMatch rest = none := by
          rcases hhd with hfalse | hsome
          · simp [hc] at hfalse
          · cases hcm2 : citMatch rest
            · rfl
            · rw [hcm2] at hsome; simp at hsome
        simp [removeCitationsGo, hc, hcm, ih rest hrest]
      · simp [removeCitationsGo, hc, ih rest hrest]

theorem removeCitations_id (cs : List Char) (h : hasCitationMarker cs = false) :
    removeCitations cs = cs :=
  removeCitationsGo_id _ cs h

theorem reverse_cons_of_getLast (cs : List Char) (x : Char) (h : cs.getLast? = some x) :
    ∃ t2, cs.reverse = x :: t2 := by
  have hh : cs.reverse.head? = some x := by
    rw [List.head?_reverse]
    exact h
  cases hr : cs.reverse with
  | nil => rw [hr] at hh; simp at hh
  | cons b t2 =>
    rw [hr] at hh
    simp only [List.head?_cons, Option.some.injEq] at hh
    exact ⟨t2, by rw [hh]⟩

theorem trimChars_id (cs : List Char) (h1 : cs.head? = some lbrace)
    (h2 : cs.getLast? = some rbrace) : trimChars cs = cs := by
  obtain ⟨t, rfl⟩ : ∃ t, cs = lbrace :: t := by
    cases cs with
    | nil => simp at h1
    | cons a t =>
      simp only [List.head?_cons, Option.some.injEq] at h1
      exact ⟨t, by rw [h1]⟩
  have hwl : isJsWs lbrace = false := by decide
  have hwr : isJsWs rbrace = false := by decide
  have hfront : (lbrace :: t).dropWhile isJsWs = lbrace :: t := by
    simp [List.dropWhile_cons, hwl]
  obtain ⟨t2, ht2⟩ := reverse_cons_of_getLast _ _ h2
  have hback : ((lbrace :: t).reverse).dropWhile isJsWs = (lbrace :: t).reverse := by
    rw [ht2]
    simp [List.dropWhile_cons, hwr]
  unfold trimChars
  rw [hfront, hback, List.reverse_reverse]

/-- When the input is object-shaped text untouched by every cleanup
step (no fence, no citation marker, starts `{`, ends `}`), the whole
cleanup pipeline is the identity. -/
theorem cleanedText_id_of_object_text (cs : List Char) (tail : List Char)
    (hcs : cs = lbrace :: tail) (hlast : cs.getLast? = some rbrace)
    (hnb : hasSubstrCh cs [bq, bq, bq] = false)
    (hnc : hasCitationMarker cs = false) : cleanedText cs = cs := by
  have hhead : cs.head? = some lbrace := by rw [hcs]; rfl
  have hpre : preTruncText cs = cs := by
    unfold preTruncText
    rw [stripFences1_id cs hnb, trimChars_id cs hhead hlast, stripFences2_id cs hnb,
      trimChars_id cs hhead hlast, removeCitations_id cs hnc]
  have hf : firstBraceIdx cs = some 0 := by
    rw [hcs]
    simp [firstBraceIdx, findIndexJs]
  obtain ⟨t2, ht2⟩ := reverse_cons_of_getLast _ _ hlast
  have hl : lastBraceIdx cs = some (cs.length - 1) := by
    simp [lastBraceIdx, ht2, findIndexJs]
  have hlen1 : 1 ≤ cs.length := by rw [hcs]; simp
  simp only [cleanedText, hpre, hf, hl]
  have hplus : cs.length - 1 + 1 = cs.length := by omega
  rw [hplus]
  simp [jsSubstring]

/-- C7 (amended): the repair steps of `cleanAndParseJSON` (trailing
comma removal, brace balancing) are applied only when the strict parse
of the cleaned text fails — when it succeeds, that strict parse is the
result; the cleanup steps themselves (fence stripping, citation
removal, brace truncation) are applied unconditionally, but they leave
object-shaped JSON text untouched provided it contains no fence marker
and no bracketed-digit citation marker, so exactly its strict parse is
returned for such inputs. -/
theorem parser_cleanup_conditional :
    (∀ (t : String) (v : Json), parseJsonChars (cleanedText t.data) = some v →
        cleanAndParseJSON (some t) = v) ∧
    (∀ (t : String) (v : Json), parseJsonChars t.data = some v →
        t.data.head? = some lbrace → t.data.getLast? = some rbrace →
        hasSubstrCh t.data [bq, bq, bq] = false →
        hasCitationMarker t.data = false →
        cleanAndParseJSON (some t) = v) := by
  have hcore : ∀ (t : String) (v : Json), parseJsonChars (cleanedText t.data) = some v →
      cleanAndParseJSON (some t) = v := by
    intro t v h
    by_cases he : t = ""
    · subst he
      have hnone : parseJsonChars (cleanedText ("".data)) = none := rfl
      rw [hnone] at h
      cases h
    · simp only [cleanAndParseJSON, if_neg he, cleanCore, h]
  refine ⟨hcore, ?_⟩
  intro t v h h1 h2 h4 h5
  obtain ⟨tail, htail⟩ : ∃ tail, t.data = lbrace :: tail := by
    cases hd : t.data with
    | nil => rw [hd] at h1; simp at h1
    | cons a r =>
      rw [hd] at h1
      simp only [List.head?_cons, Option.some.injEq] at h1
      exact ⟨r, by rw [h1]⟩
  have hcl : cleanedText t.data = t.data :=
    cleanedText_id_of_object_text t.data tail htail h2 h4 h5
  exact hcore t v (by rw [hcl]; exact h)

theorem parser_cleanup_conditional_witness :
    cleanAndParseJSON (some "\x7b\"k\":true\x7d") = Json.obj [("k", Json.bool true)] ∧
    parseJsonChars ("\x7b\"k\":true\x7d".data) = some (Json.obj [("k", Json.bool true)]) ∧
    cleanAndParseJSON (some "\x7b\"n\":7\x7d") = Json.obj [("n", Json.num "7")] :=
  ⟨parser_cleanup_conditional.2 "\x7b\"k\":true\x7d" (Json.obj [("k", Json.bool true)])
      rfl rfl rfl rfl rfl,
    rfl,
    parser_cleanup_conditional.1 "\x7b\"n\":7\x7d" (Json.obj [("n", Json.num "7")]) rfl⟩

/-- Counterexample to C7 as stated: the citation-marker removal is
applied even when the input is already strictly valid JSON object
text, so `\x7b"a":"x[1]y"\x7d` — whose strict parse has the string
value `x[1]y` — is returned with the string mangled to `xy`. -/
theorem parser_cleanup_unconditional_cex :
    parseJsonChars ("\x7b\"a\":\"x[1]y\"\x7d".data) =
      some (Json.obj [("a", Json.str "x[1]y")]) ∧
    cleanAndParseJSON (some "\x7b\"a\":\"x[1]y\"\x7d") = Json.obj [("a", Json.str "xy")] ∧
    Json.obj [("a", Json.str "xy")] ≠ Json.obj [("a", Json.str "x[1]y")] := by
  refine ⟨rfl, rfl, ?_⟩
  intro h
  injection h with hm
  injection hm with hhd htl
  injection hhd with hfst hsnd
  injection hsnd with hs
  exact absurd hs (by decide)

theorem deep_analyze_replaces_content_witness :
    ∃ s', handleDeepAnalyze ([] ++ analyzedSlide :: []) "s1"
        (.ok (deepAnalysisResult { actionTitle := some "New title" })) = [] ++ s' :: [] ∧
      s'.analysis = some (deepAnalysisResult { actionTitle := some "New title" }) ∧
      s'.status = .analyzed ∧
      s'.generatedAssets = analyzedSlide.generatedAssets ∧
      s'.enhancedImage = analyzedSlide.enhancedImage ∧
      s'.videoUrl = analyzedSlide.videoUrl ∧
      s'.transitionVideoUrl = analyzedSlide.transitionVideoUrl :=
  deep_analyze_replaces_content [] [] analyzedSlide "s1" { actionTitle := some "New title" }
    (fun t ht => by simp at ht) rfl
